import Mathlib

/-!
Shallow embedding of the feluda-versioning-check repository.

The repository's core, the semantic-release workflow driven by
`PackageVersionManager`, is exercised by `tests/test_semantic_release_workflow.py`
but the implementation module `scripts/semantic_release_workflow.py` itself is
not part of the source tree; the workflow components below are therefore
modelled from the specification.  The small `feluda/feluda.py` module is in
the source tree and is embedded directly.
-/

namespace FeludaVer

/-- Splits a list of characters at every occurrence of the separator
character, keeping empty segments, mirroring how commit messages are broken
into lines and version strings into dot-separated fields. -/
def charSplit (sep : Char) : List Char → List (List Char)
  | [] => [[]]
  | x :: xs =>
    match charSplit sep xs with
    | [] => [[]]
    | y :: ys => if x = sep then [] :: y :: ys else (x :: y) :: ys

/-- Boolean test that the first list is an initial run of the second. -/
def listIsInit : List Char → List Char → Bool
  | [], _ => true
  | _, [] => false
  | a :: ps, b :: ss => a = b && listIsInit ps ss

/-- Splits a string into segments separated by the given character. -/
def strSplit (sep : Char) (s : String) : List String :=
  (charSplit sep s.data).map (fun l => ⟨l⟩)

/-- Boolean test that the second string is an initial segment of the first. -/
def strStarts (s pre : String) : Bool :=
  listIsInit pre.data s.data

/-- Boolean test that the second string is a final segment of the first. -/
def strEnds (s suf : String) : Bool :=
  listIsInit suf.data.reverse s.data.reverse

/-- Bump severities, ordered none < patch < minor < major as in the spec's
BumpSeverity enumeration. -/
inductive BumpSeverity where
  | none
  | patch
  | minor
  | major
deriving DecidableEq, Repr

/-- Numeric rank of a severity, realising the spec's total order. -/
def BumpSeverity.toNat : BumpSeverity → Nat
  | .none => 0
  | .patch => 1
  | .minor => 2
  | .major => 3

/-- Maximum of two severities under the spec's total order. -/
def BumpSeverity.maxSev (a b : BumpSeverity) : BumpSeverity :=
  if a.toNat ≤ b.toNat then b else a

/-- Subject line of a commit message: its first line. -/
def subjectLine (msg : String) : String :=
  (strSplit '\n' msg).headD ""

/-- Body lines of a commit message: every line after the first. -/
def bodyLines (msg : String) : List String :=
  (strSplit '\n' msg).tail

/-- Conventional-commit type token of a subject: the text before the first
colon, stripped of a trailing bang and of a parenthesised scope, following
the pattern type(optional scope)(optional bang): description. -/
def typeToken (subject : String) : String :=
  let beforeColon := (strSplit ':' subject).headD subject
  let beforeBang := (strSplit '!' beforeColon).headD beforeColon
  (strSplit '(' beforeBang).headD beforeBang

/-- Modelled from the spec: breaking-change marker in a subject, a bang
immediately before the colon separating type from description
(`scripts/semantic_release_workflow.py` is absent from the source tree). -/
def hasBreakingBang (subject : String) : Bool :=
  match strSplit ':' subject with
  | before :: _ :: _ => strEnds before "!"
  | _ => false

/-- Modelled from the spec: breaking-change marker in a message body, a body
line equal to or starting with BREAKING CHANGE:
(`scripts/semantic_release_workflow.py` is absent from the source tree). -/
def hasBreakingBody (msg : String) : Bool :=
  (bodyLines msg).any (fun l => strStarts l "BREAKING CHANGE:")

/-- Modelled from the spec: severity assigned to a conventional-commit type:
feat is minor; fix, docs, style, refactor, perf, test, build, ci are patch;
any other type string is still patch
(`scripts/semantic_release_workflow.py` is absent from the source tree). -/
def typeSeverity (t : String) : BumpSeverity :=
  if t = "feat" then .minor
  else if t = "fix" ∨ t = "docs" ∨ t = "style" ∨ t = "refactor" ∨ t = "perf"
      ∨ t = "test" ∨ t = "build" ∨ t = "ci" then .patch
  else .patch

/-- Modelled from the spec: the commit classifier
`PackageVersionManager._parse_conventional_commit`, absent from the source
tree.  An empty message yields none; a breaking-change marker in the subject
or body forces major; otherwise the subject's type token decides. -/
def parse_conventional_commit (msg : String) : BumpSeverity :=
  if msg = "" then .none
  else if hasBreakingBang (subjectLine msg) || hasBreakingBody msg then .major
  else typeSeverity (typeToken (subjectLine msg))

/-- Value of a decimal digit character, none for a non-digit. -/
def digitVal (c : Char) : Option Nat :=
  if '0' ≤ c ∧ c ≤ '9' then some (c.toNat - '0'.toNat) else Option.none

/-- Parses a non-empty run of decimal digits as a natural number. -/
def parseNatChars (l : List Char) : Option Nat :=
  if l = [] then Option.none
  else l.foldl (fun acc c => acc.bind fun n => (digitVal c).map fun d => n * 10 + d)
    (some 0)

/-- Modelled from the spec: parsing of a manifest version string as three
dot-separated non-negative integers MAJOR.MINOR.PATCH
(`scripts/semantic_release_workflow.py` is absent from the source tree). -/
def parseVersion (s : String) : Option (Nat × Nat × Nat) :=
  match (charSplit '.' s.data).map parseNatChars with
  | [some a, some b, some c] => some (a, b, c)
  | _ => Option.none

/-- Decimal digits of a natural number, with an explicit fuel argument so
that the recursion is structural. -/
def natDigits (fuel n : Nat) : List Char :=
  match fuel with
  | 0 => []
  | fuel + 1 => if n < 10 then [Nat.digitChar n]
      else natDigits fuel (n / 10) ++ [Nat.digitChar (n % 10)]

/-- Decimal rendering of a natural number as characters. -/
def natToChars (n : Nat) : List Char := natDigits (n + 1) n

/-- Renders a version triple back to a MAJOR.MINOR.PATCH string. -/
def showVersion (v : Nat × Nat × Nat) : String :=
  ⟨natToChars v.1 ++ '.' :: natToChars v.2.1 ++ '.' :: natToChars v.2.2⟩

/-- Modelled from the spec: semantic-version bump rules on a parsed version
triple: major gives (MAJOR+1).0.0, minor gives MAJOR.(MINOR+1).0, patch gives
MAJOR.MINOR.(PATCH+1); severity none leaves the triple unchanged
(`scripts/semantic_release_workflow.py` is absent from the source tree). -/
def applyBump : Nat × Nat × Nat → BumpSeverity → Nat × Nat × Nat
  | (x, _, _), .major => (x + 1, 0, 0)
  | (x, y, _), .minor => (x, y + 1, 0)
  | (x, y, z), .patch => (x, y, z + 1)
  | v, .none => v

/-- Modelled from the spec: the string-level bump function
`PackageVersionManager._bump_version`, absent from the source tree.  The
spec fixes the arithmetic for the major, minor and patch severities; its
behaviour on any other bump-type string (returning the version unchanged)
follows the repository's test expectation in test_version_bump_logic, which
the spec leaves unspecified. -/
def bump_version (version bumpType : String) : String :=
  match parseVersion version with
  | some v =>
    if bumpType = "major" then showVersion (applyBump v .major)
    else if bumpType = "minor" then showVersion (applyBump v .minor)
    else if bumpType = "patch" then showVersion (applyBump v .patch)
    else version
  | Option.none => version

/-- Modelled from the spec: substitution of the name and version
placeholders of a tag-format template; each placeholder occurrence is
replaced and replacement text is not rescanned
(`scripts/semantic_release_workflow.py` is absent from the source tree). -/
def renderChars (name ver : List Char) : List Char → List Char
  | '\x7b' :: 'n' :: 'a' :: 'm' :: 'e' :: '\x7d' :: rest =>
      name ++ renderChars name ver rest
  | '\x7b' :: 'v' :: 'e' :: 'r' :: 's' :: 'i' :: 'o' :: 'n' :: '\x7d' :: rest =>
      ver ++ renderChars name ver rest
  | c :: rest => c :: renderChars name ver rest
  | [] => []

/-- Renders a tag-format template with a package name and a version. -/
def renderTemplate (tmpl name ver : String) : String :=
  ⟨renderChars name.data ver.data tmpl.data⟩

/-- Modelled from the spec: directory-subtree membership of a changed file
path; the repository root (the empty relative path) contains every file, any
other package path contains the files it precedes as a path component chain
(`scripts/semantic_release_workflow.py` is absent from the source tree). -/
def pathMatches (pkgPath filePath : String) : Bool :=
  pkgPath == "" || strStarts filePath (pkgPath ++ "/")

/-- One step of longest-prefix selection: keep the containing package path
of greatest length seen so far. -/
def pickDeeper (filePath : String) (best : Option String) (p : String) :
    Option String :=
  if pathMatches p filePath then
    match best with
    | Option.none => some p
    | some q => if q.length < p.length then some p else some q
  else best

/-- Modelled from the spec: longest-prefix change attribution, choosing
among the registered package paths that contain the changed file the one of
greatest length
(`scripts/semantic_release_workflow.py` is absent from the source tree). -/
def attributePackage (registry : List String) (filePath : String) : Option String :=
  registry.foldl (pickDeeper filePath) Option.none

/-- Maximum severity of a list, folded from none. -/
def maxSeverity (l : List BumpSeverity) : BumpSeverity :=
  l.foldl BumpSeverity.maxSev .none

/-- A commit as delivered by the history reader: a free-text message whose
first line is the subject, and the set of changed file paths. -/
structure Commit where
  message : String
  changed_files : List String
deriving DecidableEq, Repr

/-- A package manifest: declared name, version string, optional tag-format
template, and the remaining fields in file order, which the version writer
must leave untouched. -/
structure Manifest where
  name : String
  version : String
  tag_format : Option String
  otherFields : List (String × String)
deriving DecidableEq, Repr

/-- Per-package outcome of a run: old version, new version, resolved bump
severity and the rendered release tag. -/
structure UpdateResult where
  old_version : String
  new_version : String
  bump_type : BumpSeverity
  tag : String
deriving DecidableEq, Repr

/-- Association-list lookup by package path, first match wins. -/
def lookupKey {α : Type} (k : String) : List (String × α) → Option α
  | [] => Option.none
  | (k₂, v) :: rest => if k = k₂ then some v else lookupKey k rest

/-- Modelled from the spec: packages a commit is attributed to, the
longest-prefix attribution of each of its changed files
(`scripts/semantic_release_workflow.py` is absent from the source tree). -/
def commitPackages (registry : List String) (c : Commit) : List String :=
  c.changed_files.filterMap (attributePackage registry)

/-- Commits of a range attributed to one package path. -/
def packageCommits (registry : List String) (commits : List Commit)
    (pkg : String) : List Commit :=
  commits.filter (fun c => (commitPackages registry c).contains pkg)

/-- Modelled from the spec: reduction of a package's attributed commits to
one bump severity, the maximum of the classified severities
(`scripts/semantic_release_workflow.py` is absent from the source tree). -/
def packageSeverity (registry : List String) (commits : List Commit)
    (pkg : String) : BumpSeverity :=
  maxSeverity ((packageCommits registry commits pkg).map
    (fun c => parse_conventional_commit c.message))

/-- Modelled from the spec: the candidate release tag of a package, rendered
from its tag-format template, with the default template used when the
manifest supplies none
(`scripts/semantic_release_workflow.py` is absent from the source tree). -/
def candidate_tag (m : Manifest) (newVer : String) : String :=
  renderTemplate (m.tag_format.getD "{name}-v{version}") m.name newVer

/-- Modelled from the spec: per-package resolution.  A severity of none
excludes the package; an unparsable version excludes it; otherwise the new
version is computed by the bump rules, the candidate tag rendered, and the
package excluded when that tag already exists
(`scripts/semantic_release_workflow.py` is absent from the source tree). -/
def resolve_package (tags : List String) (m : Manifest) (sev : BumpSeverity) :
    Option UpdateResult :=
  if sev = .none then Option.none
  else
    match parseVersion m.version with
    | Option.none => Option.none
    | some v =>
      let newV := showVersion (applyBump v sev)
      let tag := candidate_tag m newV
      if tags.contains tag then Option.none
      else some ⟨m.version, newV, sev, tag⟩

/-- Writes a new version into a manifest, leaving every other field and the
field ordering untouched. -/
def write_version (m : Manifest) (v : String) : Manifest :=
  { m with version := v }

/-- State of the external world as the manager sees it: the manifest of each
registered package, keyed by package path, and the set of existing tags. -/
structure RepoState where
  manifests : List (String × Manifest)
  tags : List String
deriving DecidableEq, Repr

/-- Modelled from the spec: the VersionUpdateResult mapping of one run,
every registered package resolved against the pre-run tag set
(`scripts/semantic_release_workflow.py` is absent from the source tree). -/
def run_results (st : RepoState) (commits : List Commit) :
    List (String × UpdateResult) :=
  st.manifests.filterMap (fun e =>
    (resolve_package st.tags e.2
      (packageSeverity (st.manifests.map Prod.fst) commits e.1)).map
      (fun r => (e.1, r)))

/-- Applier action on one manifest: rewrite the version when the package is
in the result mapping, leave the manifest untouched otherwise. -/
def applyResult (results : List (String × UpdateResult)) (p : String)
    (m : Manifest) : Manifest :=
  match lookupKey p results with
  | some r => write_version m r.new_version
  | Option.none => m

/-- Modelled from the spec: one full pass of
`PackageVersionManager.update_package_versions`, absent from the source
tree.  Every registered package is resolved against the pre-run tag set;
surviving packages get their manifest version rewritten and their rendered
tag appended to the tag namespace; all other manifests are untouched. -/
def update_package_versions (st : RepoState) (commits : List Commit) :
    List (String × UpdateResult) × RepoState :=
  (run_results st commits,
   { manifests := st.manifests.map (fun e =>
       (e.1, applyResult (run_results st commits) e.1 e.2)),
     tags := st.tags ++ (run_results st commits).map (fun pr => pr.2.tag) })

/-- Outcome of reading one manifest file: unreadable or missing required
fields, or a parsed manifest. -/
inductive ManifestOutcome where
  | failed
  | parsed (m : Manifest)
deriving DecidableEq, Repr

/-- One manifest location found while walking the repository tree: its
directory path relative to the root and what reading it produced. -/
structure ManifestSource where
  dirPath : String
  outcome : ManifestOutcome
deriving DecidableEq, Repr

/-- A manifest source is valid when it parsed and its version string is
three dot-separated non-negative integers. -/
def validManifest (s : ManifestSource) : Bool :=
  match s.outcome with
  | .failed => false
  | .parsed m => (parseVersion m.version).isSome

/-- Modelled from the spec: package discovery over the located manifests,
absent from the source tree with `scripts/semantic_release_workflow.py`.
Every valid manifest becomes a registry entry keyed by its directory path;
a parse failure or invalid version records a diagnostic and is skipped,
never aborting the walk. -/
def discover_packages : List ManifestSource →
    List (String × Manifest) × List String
  | [] => ([], [])
  | s :: rest =>
    let acc := discover_packages rest
    match s.outcome with
    | .failed => (acc.1, ("Error discovering package " ++ s.dirPath) :: acc.2)
    | .parsed m =>
      if (parseVersion m.version).isSome then ((s.dirPath, m) :: acc.1, acc.2)
      else (acc.1, ("Error discovering package " ++ s.dirPath) :: acc.2)

/-! Embedding of `feluda/feluda.py`, which is present in the source tree. -/

/-- Configuration object returned by config.load: the operators section is
either absent or a list of operator configurations, mirroring the Python
truthiness test on self.config.operators. -/
structure FeludaConfig where
  operators : Option (List String)
deriving DecidableEq, Repr

/-- Python truthiness of the configuration's operators section: an absent
section and an empty list are falsy. -/
def configOperatorsTruthy (c : FeludaConfig) : Bool :=
  match c.operators with
  | Option.none => false
  | some l => !l.isEmpty

/-- The loaded operator set built by the Operator constructor. -/
structure OperatorSet where
  configs : List String
deriving DecidableEq, Repr

/-- Python runtime errors the embedding distinguishes: attribute access on
an object that never had the attribute assigned. -/
inductive PyError where
  | attributeError (attrName : String)
deriving DecidableEq, Repr

/-- Instance state of a Feluda object after init: config and store are
always assigned; the operators attribute is assigned only along the branch
that runs, so an unassigned attribute is modelled as Option.none. -/
structure FeludaState where
  config : FeludaConfig
  store : Option Unit
  operators : Option OperatorSet
deriving DecidableEq, Repr

/-- Embeds Feluda.__init__ from feluda/feluda.py: store is set to None, and
the operators attribute is assigned only when self.config.operators is
truthy. -/
def feludaInit (c : FeludaConfig) : FeludaState :=
  { config := c,
    store := Option.none,
    operators :=
      if configOperatorsTruthy c then some ⟨c.operators.getD []⟩
      else Option.none }

/-- Embeds Feluda.setup from feluda/feluda.py: the body reads
self.operators unconditionally, which raises AttributeError when the
attribute was never assigned; when assigned, the Operator object is truthy
and its setup runs. -/
def feludaSetup (s : FeludaState) : Except PyError Unit :=
  match s.operators with
  | Option.none => Except.error (PyError.attributeError "operators")
  | some _ => Except.ok ()

/-! Concrete data used to instantiate the theorems below, mirroring the
monorepo layout that tests/test_semantic_release_workflow.py sets up. -/

/-- Concrete manifest of the feluda package. -/
def feludaManifest : Manifest :=
  ⟨"feluda", "0.1.0", Option.none, [("requires-python", ">=3.10")]⟩

/-- Repository state in which the tag of the next feluda version already
exists, as in test_tag_exists_skips_update. -/
def taggedState : RepoState :=
  ⟨[("feluda", feludaManifest)], ["feluda-v0.1.1"]⟩

/-- Repository state with no pre-existing tags. -/
def freshState : RepoState :=
  ⟨[("feluda", feludaManifest)], []⟩

/-- One fix commit touching the feluda package. -/
def fixCommits : List Commit :=
  [⟨"fix: Fix a bug in feluda", ["feluda/change.py"]⟩]

/-- Three commits of mixed severities touching the feluda package, as in
test_highest_bump_type_wins. -/
def mixedCommits : List Commit :=
  [⟨"fix: Fix a bug in feluda", ["feluda/change.py"]⟩,
   ⟨"feat: Add new feature to feluda", ["feluda/change.py"]⟩,
   ⟨"docs: Update documentation", ["feluda/change.py"]⟩]

/-- The registry paths of the monorepo the tests set up. -/
def testRegistry : List String :=
  ["feluda", "operators/operator1", "operators/operator2"]

/-- A manifest source that reads correctly. -/
def goodSource : ManifestSource :=
  ⟨"operators/operator1", ManifestOutcome.parsed
    ⟨"operator1", "0.1.0", some "{name}-{version}", []⟩⟩

/-- A manifest source whose file cannot be read, as in
test_missing_pyproject_file. -/
def badSource : ManifestSource :=
  ⟨"operators/invalid_pkg", ManifestOutcome.failed⟩

/-- A second valid manifest source. -/
def goodSource2 : ManifestSource :=
  ⟨"operators/operator2", ManifestOutcome.parsed
    ⟨"operator2", "0.2.0", some "{name}-{version}", []⟩⟩

/-! Helper lemmas. -/

theorem BumpSeverity.maxSev_eq_or (a b : BumpSeverity) :
    BumpSeverity.maxSev a b = a ∨ BumpSeverity.maxSev a b = b := by
  unfold BumpSeverity.maxSev
  split
  · exact Or.inr rfl
  · exact Or.inl rfl

theorem BumpSeverity.toNat_le_maxSev_left (a b : BumpSeverity) :
    a.toNat ≤ (BumpSeverity.maxSev a b).toNat := by
  unfold BumpSeverity.maxSev
  split <;> omega

theorem BumpSeverity.toNat_le_maxSev_right (a b : BumpSeverity) :
    b.toNat ≤ (BumpSeverity.maxSev a b).toNat := by
  unfold BumpSeverity.maxSev
  split <;> omega

theorem BumpSeverity.toNat_eq_zero {a : BumpSeverity} (h : a.toNat = 0) :
    a = BumpSeverity.none := by
  cases a <;> simp_all [BumpSeverity.toNat]

theorem foldl_maxSev_mem : ∀ (l : List BumpSeverity) (a : BumpSeverity),
    l.foldl BumpSeverity.maxSev a = a ∨ l.foldl BumpSeverity.maxSev a ∈ l
  | [], _ => Or.inl rfl
  | x :: xs, a => by
    rw [List.foldl_cons]
    rcases foldl_maxSev_mem xs (BumpSeverity.maxSev a x) with h | h
    · rw [h]
      rcases BumpSeverity.maxSev_eq_or a x with h₂ | h₂
      · exact Or.inl h₂
      · exact Or.inr (by rw [h₂]; exact List.mem_cons_self x xs)
    · exact Or.inr (List.mem_cons_of_mem x h)

theorem foldl_maxSev_acc_le : ∀ (l : List BumpSeverity) (a : BumpSeverity),
    a.toNat ≤ (l.foldl BumpSeverity.maxSev a).toNat
  | [], _ => le_refl _
  | x :: xs, a => by
    rw [List.foldl_cons]
    exact le_trans (BumpSeverity.toNat_le_maxSev_left a x)
      (foldl_maxSev_acc_le xs _)

theorem foldl_maxSev_mem_le : ∀ (l : List BumpSeverity) (a s : BumpSeverity),
    s ∈ l → s.toNat ≤ (l.foldl BumpSeverity.maxSev a).toNat
  | x :: xs, a, s, h => by
    rw [List.foldl_cons]
    rcases List.mem_cons.mp h with h₂ | h₂
    · subst h₂
      exact le_trans (BumpSeverity.toNat_le_maxSev_right a s)
        (foldl_maxSev_acc_le xs _)
    · exact foldl_maxSev_mem_le xs _ s h₂

theorem maxSeverity_mem {l : List BumpSeverity} (h : l ≠ []) :
    maxSeverity l ∈ l := by
  rcases foldl_maxSev_mem l BumpSeverity.none with h₂ | h₂
  · match l, h with
    | x :: xs, _ =>
      have hx := foldl_maxSev_mem_le (x :: xs) BumpSeverity.none x
        (List.mem_cons_self x xs)
      rw [maxSeverity] at *
      rw [h₂] at hx
      have hx0 : x = BumpSeverity.none :=
        BumpSeverity.toNat_eq_zero (Nat.le_zero.mp hx)
      rw [h₂, ← hx0]
      exact List.mem_cons_self x xs
  · exact h₂

theorem maxSeverity_ge {l : List BumpSeverity} {s : BumpSeverity} (h : s ∈ l) :
    s.toNat ≤ (maxSeverity l).toNat :=
  foldl_maxSev_mem_le l BumpSeverity.none s h

theorem pickDeeper_none_pos {f p : String} (hm : pathMatches p f = true) :
    pickDeeper f Option.none p = some p := by
  simp [pickDeeper, hm]

theorem pickDeeper_some_pos {f p : String} (q : String)
    (hm : pathMatches p f = true) :
    pickDeeper f (some q) p =
      if q.length < p.length then some p else some q := by
  simp [pickDeeper, hm]

theorem pickDeeper_neg {f p : String} (b : Option String)
    (hm : pathMatches p f = false) : pickDeeper f b p = b := by
  simp [pickDeeper, hm]

theorem foldl_pick_some (f : String) : ∀ (l : List String) (b : Option String)
    (p : String), l.foldl (pickDeeper f) b = some p →
    b = some p ∨ (p ∈ l ∧ pathMatches p f = true)
  | [], _, _, h => Or.inl h
  | x :: xs, b, p, h => by
    rw [List.foldl_cons] at h
    rcases foldl_pick_some f xs (pickDeeper f b x) p h with h₂ | h₂
    · by_cases hm : pathMatches x f
      · cases b with
        | none =>
          rw [pickDeeper_none_pos hm] at h₂
          have hxp : x = p := Option.some_injective _ h₂
          exact Or.inr ⟨by rw [← hxp]; exact List.mem_cons_self x xs,
            by rw [← hxp]; exact hm⟩
        | some q =>
          rw [pickDeeper_some_pos q hm] at h₂
          by_cases hl : q.length < x.length
          · rw [if_pos hl] at h₂
            have hxp : x = p := Option.some_injective _ h₂
            exact Or.inr ⟨by rw [← hxp]; exact List.mem_cons_self x xs,
              by rw [← hxp]; exact hm⟩
          · rw [if_neg hl] at h₂
            exact Or.inl h₂
      · rw [pickDeeper_neg b (Bool.not_eq_true _ ▸ hm)] at h₂
        exact Or.inl h₂
    · exact Or.inr ⟨List.mem_cons_of_mem x h₂.1, h₂.2⟩

theorem foldl_pick_acc_le (f : String) : ∀ (l : List String) (r p : String),
    l.foldl (pickDeeper f) (some r) = some p → r.length ≤ p.length
  | [], r, p, h => by
    have hrp : r = p := Option.some_injective _ h
    exact hrp ▸ le_refl _
  | x :: xs, r, p, h => by
    rw [List.foldl_cons] at h
    by_cases hm : pathMatches x f
    · rw [pickDeeper_some_pos r hm] at h
      by_cases hl : r.length < x.length
      · rw [if_pos hl] at h
        exact le_trans (Nat.le_of_lt hl) (foldl_pick_acc_le f xs x p h)
      · rw [if_neg hl] at h
        exact foldl_pick_acc_le f xs r p h
    · rw [pickDeeper_neg (some r) (Bool.not_eq_true _ ▸ hm)] at h
      exact foldl_pick_acc_le f xs r p h

theorem foldl_pick_max (f : String) : ∀ (l : List String) (b : Option String)
    (p : String), l.foldl (pickDeeper f) b = some p →
    ∀ q ∈ l, pathMatches q f = true → q.length ≤ p.length
  | x :: xs, b, p, h, q, hq, hmq => by
    rw [List.foldl_cons] at h
    rcases List.mem_cons.mp hq with h₂ | h₂
    · subst h₂
      cases b with
      | none =>
        rw [pickDeeper_none_pos hmq] at h
        exact foldl_pick_acc_le f xs q p h
      | some r =>
        rw [pickDeeper_some_pos r hmq] at h
        by_cases hl : r.length < q.length
        · rw [if_pos hl] at h
          exact foldl_pick_acc_le f xs q p h
        · rw [if_neg hl] at h
          exact le_trans (Nat.le_of_not_lt hl) (foldl_pick_acc_le f xs r p h)
    · exact foldl_pick_max f xs (pickDeeper f b x) p h q h₂ hmq

theorem foldl_pick_nomatch (f : String) : ∀ (l : List String) (b : Option String),
    (∀ q ∈ l, pathMatches q f = false) → l.foldl (pickDeeper f) b = b
  | [], _, _ => rfl
  | x :: xs, b, h => by
    rw [List.foldl_cons, pickDeeper_neg b (h x (List.mem_cons_self x xs))]
    exact foldl_pick_nomatch f xs b (fun q hq => h q (List.mem_cons_of_mem x hq))

theorem lookupKey_map_keyed {α β : Type} (g : String → α → β) (k : String) :
    ∀ l : List (String × α),
    lookupKey k (l.map (fun e => (e.1, g e.1 e.2))) =
      (lookupKey k l).map (g k)
  | [] => rfl
  | (k₂, v) :: rest => by
    by_cases h : k = k₂
    · subst h
      simp [lookupKey]
    · simp only [List.map_cons, lookupKey, if_neg h]
      exact lookupKey_map_keyed g k rest

theorem filterMap_keyed_ne {α β : Type} (f : String → α → Option β)
    (k : String) : ∀ (l : List (String × α)),
    (∀ e ∈ l, e.1 = k → f e.1 e.2 = Option.none) →
    ∀ pr ∈ l.filterMap (fun e => (f e.1 e.2).map (fun r => (e.1, r))),
      pr.1 ≠ k
  | [], _, pr, hpr => by simp at hpr
  | e :: rest, h, pr, hpr => by
    rw [List.filterMap_cons] at hpr
    cases hf : f e.1 e.2 with
    | none =>
      rw [hf] at hpr
      exact filterMap_keyed_ne f k rest
        (fun e₂ he₂ => h e₂ (List.mem_cons_of_mem e he₂)) pr hpr
    | some b =>
      rw [hf] at hpr
      rcases List.mem_cons.mp hpr with h₂ | h₂
      · subst h₂
        intro hk
        exact Option.some_ne_none b
          ((hf ▸ h e (List.mem_cons_self e rest) hk).symm ▸ rfl)
      · exact filterMap_keyed_ne f k rest
          (fun e₂ he₂ => h e₂ (List.mem_cons_of_mem e he₂)) pr h₂

theorem lookupKey_eq_none_of_ne {α : Type} (k : String) :
    ∀ (l : List (String × α)), (∀ pr ∈ l, pr.1 ≠ k) →
    lookupKey k l = Option.none
  | [], _ => rfl
  | (k₂, v) :: rest, h => by
    have hk : k ≠ k₂ := fun he => h (k₂, v) (List.mem_cons_self _ rest) he.symm
    simp only [lookupKey, if_neg hk]
    exact lookupKey_eq_none_of_ne k rest
      (fun pr hpr => h pr (List.mem_cons_of_mem _ hpr))

theorem discover_keys : ∀ sources : List ManifestSource,
    (discover_packages sources).1.map Prod.fst =
      (sources.filter (fun s => validManifest s)).map ManifestSource.dirPath
  | [] => rfl
  | s :: rest => by
    have ih := discover_keys rest
    cases h : s.outcome with
    | failed => simp [discover_packages, h, List.filter_cons, validManifest, ih]
    | parsed m =>
      by_cases hv : (parseVersion m.version).isSome <;>
        simp [discover_packages, h, List.filter_cons, validManifest, hv, ih]

theorem discover_diags : ∀ sources : List ManifestSource,
    (discover_packages sources).2.length =
      (sources.filter (fun s => !validManifest s)).length
  | [] => rfl
  | s :: rest => by
    have ih := discover_diags rest
    cases h : s.outcome with
    | failed => simp [discover_packages, h, List.filter_cons, validManifest, ih]
    | parsed m =>
      by_cases hv : (parseVersion m.version).isSome <;>
        simp [discover_packages, h, List.filter_cons, validManifest, hv, ih]

theorem discover_skip_invalid (bad : ManifestSource)
    (hbad : validManifest bad = false) :
    ∀ (xs ys : List ManifestSource),
    (discover_packages (xs ++ bad :: ys)).1 = (discover_packages (xs ++ ys)).1
  | [], ys => by
    cases h : bad.outcome with
    | failed => simp [discover_packages, h]
    | parsed m =>
      have hv : (parseVersion m.version).isSome = false := by
        rw [validManifest, h] at hbad
        exact hbad
      simp [discover_packages, h, hv]
  | x :: xs, ys => by
    have ih := discover_skip_invalid bad hbad xs ys
    cases h : x.outcome with
    | failed => simp [discover_packages, h, ih]
    | parsed m =>
      by_cases hv : (parseVersion m.version).isSome <;>
        simp [discover_packages, h, hv, ih]

theorem renderChars_default (nd vd : List Char) :
    renderChars nd vd ("{name}-v{version}".data) =
      nd ++ '-' :: 'v' :: (vd ++ []) := rfl

theorem render_default_append (name ver : String) :
    renderTemplate "{name}-v{version}" name ver = name ++ "-v" ++ ver := by
  apply String.ext
  show renderChars name.data ver.data ("{name}-v{version}".data) =
    ((name ++ "-v") ++ ver).data
  rw [renderChars_default, String.data_append, String.data_append]
  show name.data ++ '-' :: 'v' :: (ver.data ++ []) =
    (name.data ++ '-' :: 'v' :: []) ++ ver.data
  simp

theorem lookupKey_unique {α : Type} {k : String} {m : α} :
    ∀ {l : List (String × α)}, (l.map Prod.fst).Nodup →
    lookupKey k l = some m → ∀ e ∈ l, e.1 = k → e.2 = m := by
  intro l
  induction l with
  | nil => intro _ _ e he; simp at he
  | cons hd rest ih =>
    intro hnd hl e he hek
    rw [List.map_cons, List.nodup_cons] at hnd
    rcases List.mem_cons.mp he with h₂ | h₂
    · subst h₂
      rw [lookupKey, if_pos hek.symm] at hl
      exact Option.some_injective _ hl
    · by_cases hk : k = hd.1
      · exact absurd (List.mem_map_of_mem Prod.fst h₂)
          (by rw [hek, hk]; exact hnd.1)
      · rw [lookupKey, if_neg hk] at hl
        exact ih hnd.2 hl e h₂ hek

/-! Claim theorems. -/

/-- C2: The commit classifier maps every message to a BumpSeverity: a
subject of type feat yields minor; subjects of type fix, docs, style,
refactor, perf, test, build or ci yield patch; any other or
non-conventional message yields patch; a bang before the colon or a body
line starting with BREAKING CHANGE: forces major; and the empty message
yields none. -/
theorem C2_classifier :
    parse_conventional_commit "" = BumpSeverity.none ∧
    (∀ msg : String, msg ≠ "" →
      (hasBreakingBang (subjectLine msg) = true ∨ hasBreakingBody msg = true) →
      parse_conventional_commit msg = BumpSeverity.major) ∧
    (∀ msg : String, msg ≠ "" →
      hasBreakingBang (subjectLine msg) = false →
      hasBreakingBody msg = false →
      typeToken (subjectLine msg) = "feat" →
      parse_conventional_commit msg = BumpSeverity.minor) ∧
    (∀ msg : String, msg ≠ "" →
      hasBreakingBang (subjectLine msg) = false →
      hasBreakingBody msg = false →
      typeToken (subjectLine msg) ≠ "feat" →
      parse_conventional_commit msg = BumpSeverity.patch) ∧
    parse_conventional_commit "feat: x" = BumpSeverity.minor ∧
    parse_conventional_commit "fix: x" = BumpSeverity.patch ∧
    parse_conventional_commit "docs: x" = BumpSeverity.patch ∧
    parse_conventional_commit "style: x" = BumpSeverity.patch ∧
    parse_conventional_commit "refactor: x" = BumpSeverity.patch ∧
    parse_conventional_commit "perf: x" = BumpSeverity.patch ∧
    parse_conventional_commit "test: x" = BumpSeverity.patch ∧
    parse_conventional_commit "build: x" = BumpSeverity.patch ∧
    parse_conventional_commit "ci: x" = BumpSeverity.patch ∧
    parse_conventional_commit "feat!: x" = BumpSeverity.major ∧
    parse_conventional_commit "fix: x\n\nBREAKING CHANGE: y" =
      BumpSeverity.major ∧
    parse_conventional_commit "random text" = BumpSeverity.patch := by
  refine ⟨by decide, ?_, ?_, ?_, by decide, by decide, by decide, by decide,
    by decide, by decide, by decide, by decide, by decide, by decide,
    by decide, by decide⟩
  · intro msg hne hbr
    unfold parse_conventional_commit
    rw [if_neg hne, if_pos (show (hasBreakingBang (subjectLine msg) ||
      hasBreakingBody msg) = true by rcases hbr with h | h <;> simp [h])]
  · intro msg hne h1 h2 hty
    unfold parse_conventional_commit
    rw [if_neg hne, if_neg (show ¬(hasBreakingBang (subjectLine msg) ||
      hasBreakingBody msg) = true by simp [h1, h2]), hty]
    decide
  · intro msg hne h1 h2 hty
    unfold parse_conventional_commit
    rw [if_neg hne, if_neg (show ¬(hasBreakingBang (subjectLine msg) ||
      hasBreakingBody msg) = true by simp [h1, h2])]
    unfold typeSeverity
    rw [if_neg hty]
    split <;> rfl

/-- Witness for C2: the non-conventional message clause applied at the
concrete message random text. -/
theorem C2_classifier_witness :
    ("random text" ≠ "") ∧
    hasBreakingBang (subjectLine "random text") = false ∧
    hasBreakingBody "random text" = false ∧
    typeToken (subjectLine "random text") ≠ "feat" ∧
    parse_conventional_commit "random text" = BumpSeverity.patch :=
  ⟨by decide, by decide, by decide, by decide,
    C2_classifier.2.2.2.1 "random text" (by decide) (by decide) (by decide)
      (by decide)⟩

/-- C3: For every package with at least one attributed commit, the resolved
bump severity is a severity of one of its attributed commits and bounds
every attributed commit's severity from above under the total order
none < patch < minor < major; severities [patch, minor, patch] resolve to
minor. -/
theorem C3_max_severity (registry : List String) (commits : List Commit)
    (pkg : String) (h : packageCommits registry commits pkg ≠ []) :
    packageSeverity registry commits pkg ∈
      (packageCommits registry commits pkg).map
        (fun c => parse_conventional_commit c.message) ∧
    (∀ s ∈ (packageCommits registry commits pkg).map
        (fun c => parse_conventional_commit c.message),
      s.toNat ≤ (packageSeverity registry commits pkg).toNat) ∧
    maxSeverity [BumpSeverity.patch, BumpSeverity.minor, BumpSeverity.patch] =
      BumpSeverity.minor := by
  refine ⟨?_, ?_, by decide⟩
  · exact maxSeverity_mem (fun hm => h (List.map_eq_nil_iff.mp hm))
  · intro s hs
    exact maxSeverity_ge hs

/-- Witness for C3: the mixed fix, feat and docs commits of the feluda
package resolve to a severity attained by one of them. -/
theorem C3_max_severity_witness :
    packageCommits ["feluda"] mixedCommits "feluda" ≠ [] ∧
    packageSeverity ["feluda"] mixedCommits "feluda" ∈
      (packageCommits ["feluda"] mixedCommits "feluda").map
        (fun c => parse_conventional_commit c.message) :=
  ⟨by decide,
    (C3_max_severity ["feluda"] mixedCommits "feluda" (by decide)).1⟩

/-- C4: For every version of three non-negative integers, the bump function
returns (MAJOR+1).0.0 for major, MAJOR.(MINOR+1).0 for minor and
MAJOR.MINOR.(PATCH+1) for patch, with the concrete instances of the spec. -/
theorem C4_bump_rules (s : String) (M m p : Nat)
    (h : parseVersion s = some (M, m, p)) :
    bump_version s "major" = showVersion (M + 1, 0, 0) ∧
    bump_version s "minor" = showVersion (M, m + 1, 0) ∧
    bump_version s "patch" = showVersion (M, m, p + 1) ∧
    bump_version "1.2.3" "major" = "2.0.0" ∧
    bump_version "1.0.0" "minor" = "1.1.0" ∧
    bump_version "1.2.3" "patch" = "1.2.4" := by
  refine ⟨?_, ?_, ?_, by decide, by decide, by decide⟩ <;>
    simp [bump_version, h, applyBump]

/-- Witness for C4: the bump rules applied at the parsed version 1.2.3. -/
theorem C4_bump_rules_witness :
    parseVersion "1.2.3" = some (1, 2, 3) ∧
    bump_version "1.2.3" "major" = showVersion (2, 0, 0) :=
  ⟨by decide, (C4_bump_rules "1.2.3" 1 2 3 (by decide)).1⟩

/-- C5: A changed file is attributed exactly to the registered package
whose path is the longest prefix of the file's path; a file touching
operators/operator1 attributes there and not to the root feluda package or
to operators/operator2, and a file under no registered subtree attributes
to no package. -/
theorem C5_attribution (registry : List String) (f : String) :
    (∀ p : String, attributePackage registry f = some p →
      p ∈ registry ∧ pathMatches p f = true ∧
      ∀ q ∈ registry, pathMatches q f = true → q.length ≤ p.length) ∧
    ((∀ q ∈ registry, pathMatches q f = false) →
      attributePackage registry f = Option.none) ∧
    attributePackage testRegistry "operators/operator1/change.py" =
      some "operators/operator1" ∧
    attributePackage testRegistry "README.md" = Option.none := by
  refine ⟨?_, ?_, by decide, by decide⟩
  · intro p hp
    rcases foldl_pick_some f registry Option.none p hp with h | h
    · exact absurd h (by simp)
    · exact ⟨h.1, h.2, foldl_pick_max f registry Option.none p hp⟩
  · intro hall
    exact foldl_pick_nomatch f registry Option.none hall

/-- Witness for C5: the attribution of operators/operator1/change.py is a
registered package containing the file and of maximal path length. -/
theorem C5_attribution_witness :
    "operators/operator1" ∈ testRegistry ∧
    pathMatches "operators/operator1" "operators/operator1/change.py" = true ∧
    (∀ q ∈ testRegistry,
      pathMatches q "operators/operator1/change.py" = true →
      q.length ≤ "operators/operator1".length) :=
  (C5_attribution testRegistry "operators/operator1/change.py").1
    "operators/operator1" (by decide)

/-- C6: Discovery produces one registry entry per valid manifest, keyed by
its directory path; an invalid manifest is excluded with a diagnostic; and
removing an invalid manifest from the walk leaves the registry unchanged,
so one malformed package never aborts discovery of the others. -/
theorem C6_discovery :
    (∀ sources : List ManifestSource,
      (discover_packages sources).1.map Prod.fst =
        (sources.filter (fun s => validManifest s)).map
          ManifestSource.dirPath) ∧
    (∀ sources : List ManifestSource,
      (discover_packages sources).2.length =
        (sources.filter (fun s => !validManifest s)).length) ∧
    (∀ (xs ys : List ManifestSource) (bad : ManifestSource),
      validManifest bad = false →
      (discover_packages (xs ++ bad :: ys)).1 =
        (discover_packages (xs ++ ys)).1) ∧
    (discover_packages [goodSource, badSource, goodSource2]).1.map Prod.fst =
      ["operators/operator1", "operators/operator2"] ∧
    (discover_packages [goodSource, badSource, goodSource2]).2.length = 1 :=
  ⟨discover_keys, discover_diags,
    fun xs ys bad h => discover_skip_invalid bad h xs ys,
    by decide, by decide⟩

/-- Witness for C6: dropping the unreadable manifest from the walk leaves
the discovered registry unchanged. -/
theorem C6_discovery_witness :
    validManifest badSource = false ∧
    (discover_packages [goodSource, badSource, goodSource2]).1 =
      (discover_packages [goodSource, goodSource2]).1 :=
  ⟨by decide,
    C6_discovery.2.2.1 [goodSource] [goodSource2] badSource (by decide)⟩

/-- C7: Writing a new version into a manifest changes only the version
field, preserving the name, the tag template and every other field in
order; a package absent from the result mapping of a run has its manifest
untouched, and an updated package's manifest is exactly the old one with
the version rewritten. -/
theorem C7_manifest_frame :
    (∀ (m : Manifest) (v : String),
      (write_version m v).name = m.name ∧
      (write_version m v).tag_format = m.tag_format ∧
      (write_version m v).otherFields = m.otherFields ∧
      (write_version m v).version = v) ∧
    (∀ (st : RepoState) (commits : List Commit) (pkg : String),
      lookupKey pkg (update_package_versions st commits).1 = Option.none →
      lookupKey pkg (update_package_versions st commits).2.manifests =
        lookupKey pkg st.manifests) ∧
    (∀ (st : RepoState) (commits : List Commit) (pkg : String)
      (m : Manifest) (r : UpdateResult),
      lookupKey pkg st.manifests = some m →
      lookupKey pkg (update_package_versions st commits).1 = some r →
      lookupKey pkg (update_package_versions st commits).2.manifests =
        some (write_version m r.new_version)) := by
  refine ⟨fun m v => ⟨rfl, rfl, rfl, rfl⟩, ?_, ?_⟩
  · intro st commits pkg hnone
    have hmap := lookupKey_map_keyed
      (applyResult (run_results st commits)) pkg st.manifests
    show lookupKey pkg (st.manifests.map (fun e =>
      (e.1, applyResult (run_results st commits) e.1 e.2))) =
      lookupKey pkg st.manifests
    rw [hmap]
    cases hl : lookupKey pkg st.manifests with
    | none => rfl
    | some m =>
      show some (applyResult (run_results st commits) pkg m) = some m
      unfold applyResult
      rw [show lookupKey pkg (run_results st commits) = Option.none from hnone]
  · intro st commits pkg m r hm hr
    have hmap := lookupKey_map_keyed
      (applyResult (run_results st commits)) pkg st.manifests
    show lookupKey pkg (st.manifests.map (fun e =>
      (e.1, applyResult (run_results st commits) e.1 e.2))) =
      some (write_version m r.new_version)
    rw [hmap, hm]
    show some (applyResult (run_results st commits) pkg m) = _
    unfold applyResult
    rw [show lookupKey pkg (run_results st commits) = some r from hr]

/-- Witness for C7: the run over the fresh state rewrites the feluda
manifest to exactly the old manifest with version 0.1.1. -/
theorem C7_manifest_frame_witness :
    lookupKey "feluda" freshState.manifests = some feludaManifest ∧
    lookupKey "feluda" (update_package_versions freshState fixCommits).1 =
      some ⟨"0.1.0", "0.1.1", BumpSeverity.patch, "feluda-v0.1.1"⟩ ∧
    lookupKey "feluda"
        (update_package_versions freshState fixCommits).2.manifests =
      some (write_version feludaManifest "0.1.1") :=
  ⟨rfl, by decide,
    C7_manifest_frame.2.2 freshState fixCommits "feluda" feludaManifest
      ⟨"0.1.0", "0.1.1", BumpSeverity.patch, "feluda-v0.1.1"⟩ rfl (by decide)⟩

/-- C8: The candidate tag of a resolved package is rendered from its
tag-format template by substituting name and version for the placeholders;
when the manifest supplies no template, the default name-v-version template
is used. -/
theorem C8_tag_template :
    (∀ name ver : String,
      renderTemplate "{name}-v{version}" name ver = name ++ "-v" ++ ver) ∧
    (∀ (m : Manifest) (v : String), m.tag_format = Option.none →
      candidate_tag m v = m.name ++ "-v" ++ v) ∧
    (∀ (m : Manifest) (v : String) (tf : String), m.tag_format = some tf →
      candidate_tag m v = renderTemplate tf m.name v) ∧
    candidate_tag feludaManifest "0.1.1" = "feluda-v0.1.1" ∧
    renderTemplate "{name}-{version}" "operator1" "0.2.0" =
      "operator1-0.2.0" := by
  refine ⟨render_default_append, ?_, ?_, by decide, by decide⟩
  · intro m v hm
    unfold candidate_tag
    rw [hm]
    exact render_default_append m.name v
  · intro m v tf hm
    unfold candidate_tag
    rw [hm]
    rfl

/-- Witness for C8: the feluda manifest supplies no template, so its
candidate tag is the default rendering. -/
theorem C8_tag_template_witness :
    feludaManifest.tag_format = Option.none ∧
    candidate_tag feludaManifest "0.1.1" =
      feludaManifest.name ++ "-v" ++ "0.1.1" :=
  ⟨rfl, C8_tag_template.2.1 feludaManifest "0.1.1" rfl⟩

/-- C10: The string-level bump function is the identity on its version
argument for every bump-type string outside major, minor and patch. -/
theorem C10_bump_identity (v t : String) (h1 : t ≠ "major")
    (h2 : t ≠ "minor") (h3 : t ≠ "patch") : bump_version v t = v := by
  unfold bump_version
  cases hp : parseVersion v with
  | none => rfl
  | some w => simp [h1, h2, h3]

/-- Witness for C10: bumping 1.2.3 with the unrecognized type invalid
leaves the version unchanged. -/
theorem C10_bump_identity_witness :
    ("invalid" ≠ "major") ∧ ("invalid" ≠ "minor") ∧ ("invalid" ≠ "patch") ∧
    bump_version "1.2.3" "invalid" = "1.2.3" :=
  ⟨by decide, by decide, by decide,
    C10_bump_identity "1.2.3" "invalid" (by decide) (by decide) (by decide)⟩

/-- C1: If the rendered tag of a package's computed new version already
exists before the run, the package is absent from the returned result
mapping, its manifest is unchanged, and the tags created by the run are
exactly those of the returned results, so none is created for the gated
package. -/
theorem C1_idempotency (st : RepoState) (commits : List Commit)
    (pkg : String) (m : Manifest) (v : Nat × Nat × Nat)
    (hnd : (st.manifests.map Prod.fst).Nodup)
    (hm : lookupKey pkg st.manifests = some m)
    (hsev : packageSeverity (st.manifests.map Prod.fst) commits pkg ≠
      BumpSeverity.none)
    (hv : parseVersion m.version = some v)
    (htag : st.tags.contains
      (candidate_tag m (showVersion (applyBump v
        (packageSeverity (st.manifests.map Prod.fst) commits pkg)))) = true) :
    lookupKey pkg (update_package_versions st commits).1 = Option.none ∧
    (∀ pr ∈ (update_package_versions st commits).1, pr.1 ≠ pkg) ∧
    lookupKey pkg (update_package_versions st commits).2.manifests = some m ∧
    (update_package_versions st commits).2.tags =
      st.tags ++ (update_package_versions st commits).1.map
        (fun pr => pr.2.tag) := by
  have hres : ∀ e ∈ st.manifests, e.1 = pkg →
      resolve_package st.tags e.2
        (packageSeverity (st.manifests.map Prod.fst) commits e.1) =
        Option.none := by
    intro e he hek
    have hem : e.2 = m := lookupKey_unique hnd hm e he hek
    rw [hek, hem]
    simp [resolve_package, hsev, hv]
    simpa using htag
  have h1 : ∀ pr ∈ run_results st commits, pr.1 ≠ pkg :=
    filterMap_keyed_ne
      (fun p mm => resolve_package st.tags mm
        (packageSeverity (st.manifests.map Prod.fst) commits p))
      pkg st.manifests hres
  have h2 : lookupKey pkg (run_results st commits) = Option.none :=
    lookupKey_eq_none_of_ne pkg (run_results st commits) h1
  refine ⟨h2, h1, ?_, rfl⟩
  have hmap := lookupKey_map_keyed
    (applyResult (run_results st commits)) pkg st.manifests
  show lookupKey pkg (st.manifests.map (fun e =>
    (e.1, applyResult (run_results st commits) e.1 e.2))) = some m
  rw [hmap, hm]
  show some (applyResult (run_results st commits) pkg m) = some m
  unfold applyResult
  rw [h2]

/-- Witness for C1: with tag feluda-v0.1.1 pre-existing, the fix commit
leaves feluda out of the results and its manifest untouched. -/
theorem C1_idempotency_witness :
    (taggedState.manifests.map Prod.fst).Nodup ∧
    lookupKey "feluda" taggedState.manifests = some feludaManifest ∧
    packageSeverity (taggedState.manifests.map Prod.fst) fixCommits
      "feluda" ≠ BumpSeverity.none ∧
    parseVersion feludaManifest.version = some (0, 1, 0) ∧
    taggedState.tags.contains (candidate_tag feludaManifest
      (showVersion (applyBump (0, 1, 0)
        (packageSeverity (taggedState.manifests.map Prod.fst) fixCommits
          "feluda")))) = true ∧
    lookupKey "feluda" (update_package_versions taggedState fixCommits).1 =
      Option.none ∧
    lookupKey "feluda"
        (update_package_versions taggedState fixCommits).2.manifests =
      some feludaManifest := by
  have h := C1_idempotency taggedState fixCommits "feluda" feludaManifest
    (0, 1, 0) (by decide) rfl (by decide) (by decide) (by decide)
  exact ⟨by decide, rfl, by decide, by decide, by decide, h.1, h.2.2.1⟩

/-- C9: For a configuration whose operators section is absent or falsy,
constructing the Feluda object succeeds without assigning the operators
attribute, and a subsequent setup call fails with an attribute error
because setup reads self.operators unconditionally. -/
theorem C9_missing_operators (c : FeludaConfig)
    (h : configOperatorsTruthy c = false) :
    (feludaInit c).operators = Option.none ∧
    (feludaInit c).config = c ∧
    feludaSetup (feludaInit c) =
      Except.error (PyError.attributeError "operators") := by
  have h1 : (feludaInit c).operators = Option.none := by
    simp [feludaInit, h]
  refine ⟨h1, rfl, ?_⟩
  unfold feludaSetup
  rw [h1]

/-- Witness for C9: the configuration with no operators section makes
setup raise the attribute error. -/
theorem C9_missing_operators_witness :
    configOperatorsTruthy ⟨Option.none⟩ = false ∧
    feludaSetup (feludaInit ⟨Option.none⟩) =
      Except.error (PyError.attributeError "operators") :=
  ⟨rfl, (C9_missing_operators ⟨Option.none⟩ rfl).2.2⟩

end FeludaVer
